import Mathlib

/-!
Verification of the document-series correlative numbering core of the `arka`
repository (apps/customers): the `DocumentSeries` model with its
`get_next_correlative` allocator (`apps/customers/models.py`), the
`DocumentSeriesForm.clean` validation (`apps/customers/forms.py`), and the
create/delete AJAX views (`apps/customers/views.py`).

The Python code is shallowly embedded: strings are Lean `String`s manipulated
through their character lists, database rows are records in an explicit
registry state, and each HTTP/ORM operation is a pure state-passing function.
-/

namespace Arka

/-! ## Python string primitives used by the source -/

/-- Python `str.upper()` on the ASCII series codes handled by the form. -/
def pyUpper (s : String) : String := String.mk (s.data.map Char.toUpper)

/-- Python `s.startswith(p)` for a one-character pattern `p`, as used by
`DocumentSeriesForm.clean` on the convention letters. -/
def startsWithChar (s : String) (c : Char) : Bool :=
  match s.data with
  | [] => false
  | d :: _ => d == c

/-- Python `str.zfill(width)` on an unsigned digit string: left-pad with `'0'`
up to `width`; a string at least `width` long is returned unchanged. -/
def zfill (width : Nat) (s : String) : String :=
  if width ≤ s.length then s
  else String.mk (List.replicate (width - s.length) '0' ++ s.data)

/-- The character for decimal digit `d` (meaningful for `d < 10`). -/
def digitChar (d : Nat) : Char := Char.ofNat (48 + d)

/-- Decimal digits of `n`, least significant first, with explicit fuel so the
function is structurally recursive (`fuel ≥ n` is always enough). -/
def digitsRevAux (fuel : Nat) (n : Nat) : List Nat :=
  match fuel with
  | 0 => []
  | f + 1 => if n = 0 then [] else n % 10 :: digitsRevAux f (n / 10)

/-- Decimal digits of `n`, most significant first; `[0]` for `n = 0` so that
the rendering below agrees with Python `str(0) = "0"`. -/
def decimalDigits (n : Nat) : List Nat :=
  if n = 0 then [0] else (digitsRevAux n n).reverse

/-- Python `str(n)` for a natural number: its decimal representation. -/
def pyStr (n : Nat) : String := String.mk ((decimalDigits n).map digitChar)

/-- The formatted correlative the source returns: `str(n).zfill(8)`. -/
def fmt8 (n : Nat) : String := zfill 8 (pyStr n)

instance {ε α : Type} [DecidableEq ε] [DecidableEq α] : DecidableEq (Except ε α) := fun a b =>
  match a, b with
  | .ok x, .ok y =>
    if h : x = y then isTrue (by rw [h])
    else isFalse (fun hc => h (by cases hc; rfl))
  | .error x, .error y =>
    if h : x = y then isTrue (by rw [h])
    else isFalse (fun hc => h (by cases hc; rfl))
  | .ok _, .error _ => isFalse (fun hc => by cases hc)
  | .error _, .ok _ => isFalse (fun hc => by cases hc)

/-! ## The `DocumentSeries` model and its allocator -/

/-- One `DocumentSeries` row (`apps/customers/models.py`): the branch foreign
key, the two-character SUNAT document type, the series code, the counter, and
the `SoftDeletableModel` flag.  Row identity is the database primary key. -/
structure DocumentSeries where
  id : Nat
  branch_id : Nat
  document_type : String
  series_number : String
  current_correlative : Nat
  is_removed : Bool
deriving Repr, DecidableEq

/-- `DocumentSeries.get_next_correlative`: read the counter, increment it in
memory, save, and return the read value zero-filled to eight characters. -/
def get_next_correlative (s : DocumentSeries) : String × DocumentSeries :=
  let correlative := s.current_correlative
  let s' := { s with current_correlative := s.current_correlative + 1 }
  (zfill 8 (pyStr correlative), s')

/-- `n` sequential calls of `get_next_correlative` on the same row, collecting
the returned strings. -/
def allocateN : Nat → DocumentSeries → List String × DocumentSeries
  | 0, s => ([], s)
  | n + 1, s =>
    let (out, s') := get_next_correlative s
    let (outs, s'') := allocateN n s'
    (out :: outs, s'')

/-! ## `DocumentSeriesForm` validation -/

/-- Validation failures raised by the form layer (`forms.ValidationError`
variants plus the field-level errors Django raises before `clean`). -/
inductive FormError where
  | prefixMismatch
  | badLength
  | badShape
  | requiredMissing
  | invalidChoice
  | minValue
deriving Repr, DecidableEq

/-- The `DocumentTypeChoices` codes (`apps/customers/choices.py`). -/
def documentTypeChoices : List String := ["01", "03", "07", "08", "09"]

/-- The SUNAT naming-convention table of `DocumentSeriesForm.clean`.  A
single-letter entry of the source dictionary becomes a one-element list, the
tuple entries for the credit and debit notes become two-element lists. -/
def conventions (document_type : String) : Option (List Char) :=
  if document_type = "01" then some ['F']
  else if document_type = "03" then some ['B']
  else if document_type = "07" then some ['F', 'B']
  else if document_type = "08" then some ['F', 'B']
  else if document_type = "09" then some ['T']
  else none

/-- Python `str.isdigit` on one character.  Python's predicate is
Unicode-wide; it is modelled faithfully for the code points below U+0100,
where the accepted characters are the decimal digits `0`–`9` together with
the Latin-1 superscripts `¹`, `²`, `³` (digit characters that are not decimal
digits).  Beyond that block Python accepts further digit characters of other
scripts, outside the character repertoire modelled here. -/
def pyIsDigit (c : Char) : Bool :=
  c.isDigit || c == '¹' || c == '²' || c == '³'

/-- Python `str.isalpha` on one character, modelled faithfully for the code
points below U+0100: the ASCII letters, the ordinal indicators `ª` and `º`,
the micro sign `µ`, and the Latin-1 letters `À`–`ÿ` without the
multiplication and division signs. -/
def pyIsAlpha (c : Char) : Bool :=
  c.isAlpha || c == 'ª' || c == 'µ' || c == 'º'
    || (decide (0xC0 ≤ c.toNat) && decide (c.toNat ≤ 0xFF)
        && c.toNat != 0xD7 && c.toNat != 0xF7)

/-- Shape test from the source: `series_number[0].isalpha() and
series_number[1:].isdigit()`.  It is only reached once the length-4 check has
passed, so the tail is the three trailing characters. -/
def shapeOk (s : String) : Bool :=
  match s.data with
  | [] => false
  | c :: rest => pyIsAlpha c && rest.all (fun d => pyIsDigit d)

/-- Format checks at the end of `DocumentSeriesForm.clean`: exactly four
characters, then one letter followed by digits; on success the (already
uppercased) code is the cleaned value. -/
def cleanFormat (sn : String) : Except FormError String :=
  if sn.length ≠ 4 then .error .badLength
  else if shapeOk sn then .ok sn
  else .error .badShape

/-- `DocumentSeriesForm.clean` on the two fields it inspects: uppercase the
series code, require the convention letter of the document type (any listed
letter for the tuple entries), then run the format checks. -/
def clean_series (document_type series_number : String) : Except FormError String :=
  let sn := pyUpper series_number
  match conventions document_type with
  | some ps =>
    if ps.any (fun p => startsWithChar sn p) then cleanFormat sn
    else .error .prefixMismatch
  | none => cleanFormat sn

/-! ## The registry: persisted rows and the exposed operations -/

/-- The persisted table of `DocumentSeries` rows together with the next free
primary key. -/
structure RegistryState where
  nextId : Nat
  rows : List DocumentSeries
deriving Repr, DecidableEq

/-- Failures of the create view: a form validation error, or the
`IntegrityError` from the `unique_together` constraint on
`(branch, document_type, series_number)` (which spans removed rows too). -/
inductive RegisterError where
  | form (e : FormError)
  | integrity
deriving Repr, DecidableEq

/-- `DocumentSeriesCreateView.post`: field validation (`document_type` choice,
required fields, the `min_value = 0` bound Django derives from
`PositiveIntegerField`), `DocumentSeriesForm.clean`, then the insert guarded
by the database unique constraint over every stored row, removed or not.
Returns the new row id on success, leaving the state unchanged on failure. -/
def register (st : RegistryState) (branch_id : Nat)
    (document_type series_number : String) (current_correlative : Option Int) :
    Except RegisterError Nat × RegistryState :=
  if ¬ documentTypeChoices.contains document_type then
    (.error (.form .invalidChoice), st)
  else if series_number = "" then (.error (.form .requiredMissing), st)
  else
    match current_correlative with
    | none => (.error (.form .requiredMissing), st)
    | some v =>
      if v < 0 then (.error (.form .minValue), st)
      else
        match clean_series document_type series_number with
        | .error e => (.error (.form e), st)
        | .ok sn =>
          if st.rows.any (fun r =>
              r.branch_id == branch_id && r.document_type == document_type
                && r.series_number == sn) then
            (.error .integrity, st)
          else
            (.ok st.nextId,
             { nextId := st.nextId + 1
               rows := st.rows ++
                 [⟨st.nextId, branch_id, document_type, sn, v.toNat, false⟩] })

/-- Failure of the allocator entry point. -/
inductive AllocError where
  | notFound
deriving Repr, DecidableEq

/-- Modelled from the spec: the business-layer entry point
`allocate_next(series_id)` is not among the extracted sources (only
`DocumentSeries.get_next_correlative` and the views are).  Per the spec it
resolves the id among non-removed rows, fails with `NotFoundError` without
touching any state when none matches, and otherwise runs
`get_next_correlative` on the matching row and saves it back by primary key. -/
def allocate_next (st : RegistryState) (sid : Nat) :
    Except AllocError String × RegistryState :=
  match st.rows.find? (fun r => r.id == sid && !r.is_removed) with
  | none => (.error .notFound, st)
  | some r =>
    let (out, r') := get_next_correlative r
    (.ok out,
     { st with rows := st.rows.map (fun x => if x.id == sid then r' else x) })

/-- `DocumentSeriesDeleteView.delete`: look the series up through the default
manager (which excludes removed rows) and call `delete()`, which under
`SoftDeletableModel` sets `is_removed` and keeps the row.  Returns whether a
row was found (`404` otherwise). -/
def softDelete (st : RegistryState) (sid : Nat) : Bool × RegistryState :=
  if st.rows.any (fun r => r.id == sid && !r.is_removed) then
    (true,
     { st with rows := st.rows.map (fun x =>
         if x.id == sid then { x with is_removed := true } else x) })
  else (false, st)

/-- The mutating operations the core exposes (no series-edit endpoint is wired
in `apps/customers/urls.py`, so editing contributes no transition). -/
inductive Op where
  | opRegister (branch_id : Nat) (document_type series_number : String)
      (corr : Option Int)
  | opAllocate (sid : Nat)
  | opDelete (sid : Nat)

/-- Apply one operation; a successful allocation also emits the event
`(series id, returned correlative string)`. -/
def applyOp (st : RegistryState) : Op → RegistryState × Option (Nat × String)
  | .opRegister b dt sn c => ((register st b dt sn c).2, none)
  | .opAllocate sid =>
    match allocate_next st sid with
    | (.ok out, st') => (st', some (sid, out))
    | (.error _, st') => (st', none)
  | .opDelete sid => ((softDelete st sid).2, none)

/-- Run a list of operations, collecting the allocation events in order. -/
def runOps (st : RegistryState) : List Op → RegistryState × List (Nat × String)
  | [] => (st, [])
  | op :: ops =>
    let s₁ := applyOp st op
    let rest := runOps s₁.1 ops
    (rest.1, s₁.2.toList ++ rest.2)

/-- Well-formed registry: primary keys are distinct and below `nextId`. -/
def WF (st : RegistryState) : Prop :=
  (st.rows.map (fun r => r.id)).Nodup ∧ ∀ r ∈ st.rows, r.id < st.nextId

/-! ## Interleaved executions of `get_next_correlative`

`get_next_correlative` has two database interactions: the instance read of
`current_correlative` (each request works on its own loaded instance) and the
`save` that writes back the incremented copy.  A concurrent execution is a
schedule interleaving these steps of several callers over the one stored
counter. -/

/-- Progress of one caller through `get_next_correlative`. -/
inductive AllocPhase where
  | start
  | loaded (snapshot : Nat)
  | finished (ret : String)
deriving Repr, DecidableEq

/-- One database interaction of a caller: from `start`, read the stored value
into the instance; from `loaded`, write back `snapshot + 1` and return the
formatted snapshot; a finished caller does nothing. -/
def allocStep (db : Nat) : AllocPhase → Nat × AllocPhase
  | .start => (db, .loaded db)
  | .loaded v => (v + 1, .finished (zfill 8 (pyStr v)))
  | .finished r => (db, .finished r)

/-- Let caller `i` take its next step. -/
def schedStep (st : Nat × List AllocPhase) (i : Nat) : Nat × List AllocPhase :=
  match st.2.get? i with
  | none => st
  | some ph =>
    let s := allocStep st.1 ph
    (s.1, st.2.set i s.2)

/-- Run a schedule of caller indices over the shared counter. -/
def runSchedule (st : Nat × List AllocPhase) (sched : List Nat) :
    Nat × List AllocPhase :=
  sched.foldl schedStep st

/-! ## Arithmetic facts about the decimal rendering -/

theorem digitsRevAux_eq (fuel : Nat) : ∀ n : Nat, n ≤ fuel →
    digitsRevAux fuel n = Nat.digits 10 n := by
  induction fuel with
  | zero =>
    intro n hn
    interval_cases n
    simp [digitsRevAux]
  | succ f ih =>
    intro n hn
    by_cases h0 : n = 0
    · simp [digitsRevAux, h0]
    · have hdiv : n / 10 ≤ f := by
        have := Nat.div_lt_self (Nat.pos_of_ne_zero h0) (by norm_num : 1 < 10)
        omega
      rw [Nat.digits_def' (by norm_num : (1:ℕ) < 10) (Nat.pos_of_ne_zero h0)]
      simp only [digitsRevAux, if_neg h0]
      rw [ih (n / 10) hdiv]

theorem decimalDigits_eq (n : Nat) (h : n ≠ 0) :
    decimalDigits n = (Nat.digits 10 n).reverse := by
  rw [decimalDigits, if_neg h, digitsRevAux_eq n n le_rfl]

/-- The base-10 value of a digit list written most significant first. -/
def ofDigitsMSB (L : List Nat) : Nat := L.foldl (fun acc d => 10 * acc + d) 0

theorem foldl_digits_shift (L : List Nat) : ∀ acc : Nat,
    L.foldl (fun a d => 10 * a + d) acc = acc * 10 ^ L.length + ofDigitsMSB L := by
  induction L with
  | nil => intro acc; simp [ofDigitsMSB]
  | cons d L ih =>
    intro acc
    simp only [ofDigitsMSB, List.foldl_cons, List.length_cons]
    rw [ih, ih]
    ring

theorem ofDigitsMSB_cons (d : Nat) (L : List Nat) :
    ofDigitsMSB (d :: L) = d * 10 ^ L.length + ofDigitsMSB L := by
  simp only [ofDigitsMSB, List.foldl_cons]
  rw [foldl_digits_shift]
  simp [ofDigitsMSB]

theorem ofDigitsMSB_lt (L : List Nat) (h : ∀ d ∈ L, d < 10) :
    ofDigitsMSB L < 10 ^ L.length := by
  induction L with
  | nil => simp [ofDigitsMSB]
  | cons d L ih =>
    have hd : d < 10 := h d (List.mem_cons_self d L)
    have hL : ofDigitsMSB L < 10 ^ L.length :=
      ih (fun x hx => h x (List.mem_cons_of_mem d hx))
    rw [ofDigitsMSB_cons, List.length_cons, pow_succ]
    nlinarith

theorem ofDigitsMSB_append_singleton (L : List Nat) (d : Nat) :
    ofDigitsMSB (L ++ [d]) = 10 * ofDigitsMSB L + d := by
  rw [ofDigitsMSB, ofDigitsMSB, List.foldl_append, List.foldl_cons, List.foldl_nil]

theorem ofDigitsMSB_reverse (L : List Nat) :
    ofDigitsMSB L.reverse = Nat.ofDigits 10 L := by
  induction L with
  | nil => simp [ofDigitsMSB, Nat.ofDigits_nil]
  | cons d L ih =>
    rw [List.reverse_cons, ofDigitsMSB_append_singleton, ih, Nat.ofDigits_cons]
    ring

theorem ofDigitsMSB_decimalDigits (n : Nat) : ofDigitsMSB (decimalDigits n) = n := by
  by_cases h : n = 0
  · subst h; rfl
  · rw [decimalDigits_eq n h, ofDigitsMSB_reverse, Nat.ofDigits_digits]

theorem decimalDigits_lt (n : Nat) : ∀ d ∈ decimalDigits n, d < 10 := by
  intro d hd
  by_cases h : n = 0
  · subst h; simp [decimalDigits] at hd; omega
  · rw [decimalDigits_eq n h, List.mem_reverse] at hd
    exact Nat.digits_lt_base (by norm_num) hd

theorem decimalDigits_length_le (n : Nat) (h : n < 10 ^ 8) :
    (decimalDigits n).length ≤ 8 := by
  by_cases h0 : n = 0
  · subst h0; simp [decimalDigits]
  · rw [decimalDigits_eq n h0, List.length_reverse,
      Nat.digits_len 10 n (by norm_num) h0]
    have : Nat.log 10 n < 8 := by
      rw [← Nat.lt_pow_iff_log_lt (by norm_num) h0]
      exact_mod_cast h
    omega

theorem decimalDigits_length_ge (n : Nat) (h : 10 ^ 8 ≤ n) :
    9 ≤ (decimalDigits n).length := by
  have h0 : n ≠ 0 := by positivity
  rw [decimalDigits_eq n h0, List.length_reverse,
    Nat.digits_len 10 n (by norm_num) h0]
  have : 8 ≤ Nat.log 10 n := by
    rw [← Nat.pow_le_iff_le_log (by norm_num) h0]
    exact_mod_cast h
  omega

theorem ofDigitsMSB_replicate_zero (k : Nat) (L : List Nat) :
    ofDigitsMSB (List.replicate k 0 ++ L) = ofDigitsMSB L := by
  induction k with
  | zero => simp
  | succ m ih =>
    rw [List.replicate_succ, List.cons_append, ofDigitsMSB, List.foldl_cons]
    simpa [ofDigitsMSB] using ih

/-! ## Digit characters and the shape of `fmt8` -/

/-- The numeric value of a digit character. -/
def charVal (c : Char) : Nat := c.val.toNat - 48

theorem charVal_digitChar (d : Nat) (h : d < 10) : charVal (digitChar d) = d := by
  interval_cases d <;> decide

theorem digitChar_lt_iff (d e : Nat) (hd : d < 10) (he : e < 10) :
    digitChar d < digitChar e ↔ d < e := by
  interval_cases d <;> interval_cases e <;> decide

theorem digitChar_zero : digitChar 0 = '0' := by decide

theorem pyStr_data (n : Nat) : (pyStr n).data = (decimalDigits n).map digitChar := rfl

theorem pyStr_length (n : Nat) : (pyStr n).length = (decimalDigits n).length := by
  show ((decimalDigits n).map digitChar).length = (decimalDigits n).length
  exact List.length_map _ _

/-- The digit list (most significant first, left-padded with zeros to width 8)
whose rendering is `fmt8 n`. -/
def padDigits (n : Nat) : List Nat :=
  List.replicate (8 - (decimalDigits n).length) 0 ++ decimalDigits n

theorem fmt8_data (n : Nat) : (fmt8 n).data = (padDigits n).map digitChar := by
  rw [fmt8, zfill, padDigits]
  by_cases h : 8 ≤ (pyStr n).length
  · rw [if_pos h]
    rw [pyStr_length] at h
    have : 8 - (decimalDigits n).length = 0 := by omega
    rw [this, List.replicate_zero, List.nil_append, pyStr_data]
  · rw [if_neg h, pyStr_length, pyStr_data]
    show List.replicate _ '0' ++ _ = _
    rw [List.map_append, List.map_replicate, digitChar_zero]

theorem fmt8_length (n : Nat) (h : n < 10 ^ 8) : (fmt8 n).length = 8 := by
  have hle := decimalDigits_length_le n h
  show (fmt8 n).data.length = 8
  rw [fmt8_data, List.length_map, padDigits, List.length_append,
    List.length_replicate]
  omega

theorem padDigits_lt (n : Nat) : ∀ d ∈ padDigits n, d < 10 := by
  intro d hd
  rw [padDigits, List.mem_append] at hd
  rcases hd with hd | hd
  · have := List.eq_of_mem_replicate hd
    omega
  · exact decimalDigits_lt n d hd

theorem padDigits_length (n : Nat) (h : n < 10 ^ 8) : (padDigits n).length = 8 := by
  have hle := decimalDigits_length_le n h
  rw [padDigits, List.length_append, List.length_replicate]
  omega

theorem ofDigitsMSB_padDigits (n : Nat) : ofDigitsMSB (padDigits n) = n := by
  rw [padDigits, ofDigitsMSB_replicate_zero, ofDigitsMSB_decimalDigits]

theorem map_digitChar_inj (A B : List Nat) (hA : ∀ d ∈ A, d < 10)
    (hB : ∀ d ∈ B, d < 10) (h : A.map digitChar = B.map digitChar) : A = B := by
  have eA : (A.map digitChar).map charVal = A := by
    rw [List.map_map]
    calc A.map (charVal ∘ digitChar)
        = A.map id := List.map_congr_left (fun d hd => charVal_digitChar d (hA d hd))
      _ = A := List.map_id A
  have eB : (B.map digitChar).map charVal = B := by
    rw [List.map_map]
    calc B.map (charVal ∘ digitChar)
        = B.map id := List.map_congr_left (fun d hd => charVal_digitChar d (hB d hd))
      _ = B := List.map_id B
  rw [← eA, ← eB, h]

theorem fmt8_inj (a b : Nat) (h : fmt8 a = fmt8 b) : a = b := by
  have hdata : (fmt8 a).data = (fmt8 b).data := by rw [h]
  rw [fmt8_data, fmt8_data] at hdata
  have hpad : padDigits a = padDigits b :=
    map_digitChar_inj _ _ (padDigits_lt a) (padDigits_lt b) hdata
  rw [← ofDigitsMSB_padDigits a, ← ofDigitsMSB_padDigits b, hpad]

/-! ## Lexicographic comparison of two equal-width digit renderings -/

theorem lex_of_valLt : ∀ (A B : List Nat), A.length = B.length →
    (∀ d ∈ A, d < 10) → (∀ d ∈ B, d < 10) →
    ofDigitsMSB A < ofDigitsMSB B → List.Lex (· < ·) A B := by
  intro A
  induction A with
  | nil =>
    intro B hlen _ _ hval
    cases B with
    | nil => exact absurd hval (lt_irrefl _)
    | cons b B' => exact absurd hlen (by simp)
  | cons a A' ih =>
    intro B hlen hA hB hval
    cases B with
    | nil => exact absurd hlen (by simp)
    | cons b B' =>
      have hlen' : A'.length = B'.length := by
        simpa using hlen
      have hA' : ∀ d ∈ A', d < 10 := fun d hd => hA d (List.mem_cons_of_mem a hd)
      have hB' : ∀ d ∈ B', d < 10 := fun d hd => hB d (List.mem_cons_of_mem b hd)
      rw [ofDigitsMSB_cons, ofDigitsMSB_cons, hlen'] at hval
      rcases Nat.lt_trichotomy a b with hab | hab | hab
      · exact List.Lex.rel hab
      · subst hab
        have htail : ofDigitsMSB A' < ofDigitsMSB B' := by
          exact Nat.lt_of_add_lt_add_left hval
        exact List.Lex.cons (ih B' hlen' hA' hB' htail)
      · exfalso
        have hvB := ofDigitsMSB_lt B' hB'
        have hmul : (b + 1) * 10 ^ B'.length ≤ a * 10 ^ B'.length :=
          Nat.mul_le_mul_right _ (by omega)
        have hexp : (b + 1) * 10 ^ B'.length
            = b * 10 ^ B'.length + 10 ^ B'.length := by ring
        linarith

theorem lex_map_digitChar (A B : List Nat) (h : List.Lex (· < ·) A B) :
    (∀ d ∈ A, d < 10) → (∀ d ∈ B, d < 10) →
    List.Lex (· < ·) (A.map digitChar) (B.map digitChar) := by
  induction h with
  | nil =>
    intro _ _
    simp only [List.map_cons, List.map_nil]
    exact List.Lex.nil
  | @cons a l₁ l₂ hlex ih =>
    intro hA hB
    simp only [List.map_cons]
    exact List.Lex.cons (ih (fun d hd => hA d (List.mem_cons_of_mem a hd))
      (fun d hd => hB d (List.mem_cons_of_mem a hd)))
  | @rel a₁ l₁ a₂ l₂ hr =>
    intro hA hB
    simp only [List.map_cons]
    exact List.Lex.rel ((digitChar_lt_iff a₁ a₂ (hA _ (List.mem_cons_self _ _))
      (hB _ (List.mem_cons_self _ _))).mpr hr)

theorem fmt8_lt (a b : Nat) (hab : a < b) (hb : b < 10 ^ 8) : fmt8 a < fmt8 b := by
  rw [String.lt_iff_toList_lt]
  show (fmt8 a).data < (fmt8 b).data
  rw [fmt8_data, fmt8_data]
  have ha : a < 10 ^ 8 := lt_trans hab hb
  have hval : ofDigitsMSB (padDigits a) < ofDigitsMSB (padDigits b) := by
    rw [ofDigitsMSB_padDigits, ofDigitsMSB_padDigits]; exact hab
  have hlen : (padDigits a).length = (padDigits b).length := by
    rw [padDigits_length a ha, padDigits_length b hb]
  show List.Lex (· < ·) _ _
  exact lex_map_digitChar _ _
    (lex_of_valLt _ _ hlen (padDigits_lt a) (padDigits_lt b) hval)
    (padDigits_lt a) (padDigits_lt b)

/-! ## Sequential behaviour of the allocator -/

theorem allocateN_spec : ∀ (N : Nat) (s : DocumentSeries),
    (allocateN N s).1
        = (List.range N).map (fun i => fmt8 (s.current_correlative + i))
      ∧ (allocateN N s).2
        = { s with current_correlative := s.current_correlative + N } := by
  intro N
  induction N with
  | zero =>
    intro s
    constructor
    · simp [allocateN]
    · simp [allocateN]
  | succ n ih =>
    intro s
    have hout := (ih { s with current_correlative := s.current_correlative + 1 }).1
    have hst := (ih { s with current_correlative := s.current_correlative + 1 }).2
    constructor
    · show zfill 8 (pyStr s.current_correlative)
          :: (allocateN n { s with current_correlative := s.current_correlative + 1 }).1
        = _
      rw [hout, List.range_succ_eq_map, List.map_cons, List.map_map]
      show fmt8 s.current_correlative :: _ = fmt8 (s.current_correlative + 0) :: _
      rw [Nat.add_zero]
      refine congrArg _ (List.map_congr_left (fun i _ => ?_)).symm
      show fmt8 (s.current_correlative + (i + 1)) = fmt8 (s.current_correlative + 1 + i)
      rw [Nat.add_assoc, Nat.add_comm 1 i]
    · show (allocateN n { s with current_correlative := s.current_correlative + 1 }).2 = _
      rw [hst]
      show ({ s with current_correlative := s.current_correlative + 1 + n } : DocumentSeries) = _
      rw [Nat.add_assoc, Nat.add_comm 1 n]

/-! ## Claim C1 -/

/-- C1 (amended): for a series whose counter `c` is at least 1 and `N ≥ 1`
sequential calls staying within the eight-digit range
(`c + N ≤ 10 ^ 8`), the calls return `str(c).zfill(8)`, …,
`str(c + N - 1).zfill(8)` — strictly increasing zero-padded 8-digit strings
with no duplicates — and leave `current_correlative = c + N`. -/
theorem c1_sequential_allocation (s : DocumentSeries) (N : Nat)
    (h1 : 1 ≤ s.current_correlative) (h2 : 1 ≤ N)
    (h3 : s.current_correlative + N ≤ 10 ^ 8) :
    (allocateN N s).1
        = (List.range N).map (fun i => fmt8 (s.current_correlative + i))
      ∧ List.Pairwise (· < ·) (allocateN N s).1
      ∧ (∀ out ∈ (allocateN N s).1, out.length = 8)
      ∧ (allocateN N s).1.Nodup
      ∧ (allocateN N s).2.current_correlative = s.current_correlative + N := by
  obtain ⟨hout, hst⟩ := allocateN_spec N s
  have hpair : List.Pairwise (· < ·) (allocateN N s).1 := by
    rw [hout]
    refine List.pairwise_map.mpr ?_
    refine (List.pairwise_lt_range N).imp_of_mem ?_
    intro i j hi hj hij
    rw [List.mem_range] at hj
    exact fmt8_lt _ _ (by omega) (by omega)
  refine ⟨hout, hpair, ?_, ?_, by rw [hst]⟩
  · intro out hmem
    rw [hout] at hmem
    obtain ⟨i, hi, rfl⟩ := List.mem_map.mp hmem
    rw [List.mem_range] at hi
    exact fmt8_length _ (by omega)
  · exact hpair.imp (fun h => ne_of_lt h)

/-- Witness for C1 at the spec's scenario 4: counter 5, three sequential
calls return `00000005`, `00000006`, `00000007` and leave the counter at 8. -/
theorem c1_sequential_allocation_witness :
    (allocateN 3 ⟨1, 1, "01", "F001", 5, false⟩).1
        = ["00000005", "00000006", "00000007"]
      ∧ (allocateN 3 ⟨1, 1, "01", "F001", 5, false⟩).2.current_correlative = 8 := by
  have h := c1_sequential_allocation ⟨1, 1, "01", "F001", 5, false⟩ 3
    (by decide) (by decide) (by decide)
  refine ⟨?_, ?_⟩
  · rw [h.1]; decide
  · rw [h.2.2.2.2]

/-- Counterexample to C1 as stated: at `current_correlative = 99999999`
(allowed, since the claim quantifies over every `c ≥ 1`), two sequential calls
return `"99999999"` and then `"100000000"`, a nine-character string that is
lexicographically smaller than its predecessor, so the returned strings are
neither 8-digit nor strictly increasing. -/
theorem c1_counterexample :
    (allocateN 2 ⟨1, 1, "01", "F001", 99999999, false⟩).1
        = ["99999999", "100000000"]
      ∧ ("100000000" : String).length = 9
      ∧ ("100000000" : String) < "99999999"
      ∧ ¬ List.Pairwise (· < ·)
          (allocateN 2 ⟨1, 1, "01", "F001", 99999999, false⟩).1 := by
  have hlt : ("100000000" : String) < "99999999" := by
    rw [String.lt_iff_toList_lt]; decide
  have heq : (allocateN 2 ⟨1, 1, "01", "F001", 99999999, false⟩).1
      = ["99999999", "100000000"] := by decide
  refine ⟨heq, by decide, hlt, ?_⟩
  rw [heq]
  intro hpair
  have : ("99999999" : String) < "100000000" := by
    have := List.pairwise_cons.mp hpair
    exact this.1 _ (List.mem_singleton_self _)
  exact absurd this (lt_asymm hlt)

/-! ## Claim C2 -/

/-- C2: `get_next_correlative` is a plain read, in-memory increment and save,
with no row lock or atomic conditional update, so interleaving the reads of
two callers before either save loses an update: both callers receive
`"00000005"` and the stored counter ends at 6 instead of 7 (the sequential
schedule is shown alongside for contrast). -/
theorem c2_lost_update_interleaving :
    runSchedule (5, [.start, .start]) [0, 1, 0, 1]
        = (6, [.finished "00000005", .finished "00000005"])
      ∧ runSchedule (5, [.start, .start]) [0, 0, 1, 1]
        = (7, [.finished "00000005", .finished "00000006"]) :=
  ⟨by decide, by decide⟩

/-! ## Claim C6 -/

/-- C6: when no non-removed row carries the requested id, `allocate_next`
fails with `NotFoundError` and the registry state is unchanged. -/
theorem c6_allocate_notFound (st : RegistryState) (sid : Nat)
    (h : ∀ r ∈ st.rows, r.id = sid → r.is_removed = true) :
    allocate_next st sid = (.error .notFound, st) := by
  rw [allocate_next]
  have hnone : st.rows.find? (fun r => r.id == sid && !r.is_removed) = none := by
    rw [List.find?_eq_none]
    intro r hr hp
    simp only [Bool.and_eq_true, beq_iff_eq, Bool.not_eq_true'] at hp
    exact absurd (h r hr hp.1) (by rw [hp.2]; exact Bool.false_ne_true)
  rw [hnone]

/-- Witness for C6: allocation against a registry whose only row with the
requested id is removed fails and leaves the state untouched. -/
theorem c6_allocate_notFound_witness :
    allocate_next ⟨1, [⟨0, 7, "01", "F001", 3, true⟩]⟩ 0
      = (.error .notFound, ⟨1, [⟨0, 7, "01", "F001", 3, true⟩]⟩) :=
  c6_allocate_notFound _ _ (by decide)

/-! ## Claim C5 -/

theorem cleanFormat_ok (s sn : String) (h : cleanFormat s = .ok sn) : sn = s := by
  rw [cleanFormat] at h
  split_ifs at h <;> cases h <;> rfl

theorem clean_series_ok_eq (dt code sn : String)
    (h : clean_series dt code = .ok sn) : sn = pyUpper code := by
  rw [clean_series] at h
  split at h
  · split_ifs at h
    exact cleanFormat_ok _ _ h
  · exact cleanFormat_ok _ _ h

/-- Register either fails leaving the state unchanged, or succeeds in which
case the starting value was supplied non-negative, validation passed, no
stored row (removed or not) carries the same triple, and the new state is the
old one with exactly the new row appended. -/
theorem register_cases (st : RegistryState) (b : Nat) (dt code : String)
    (corr : Option Int) :
    (∃ e, register st b dt code corr = (.error e, st))
    ∨ (∃ v : Int, corr = some v ∧ 0 ≤ v
        ∧ clean_series dt code = .ok (pyUpper code)
        ∧ documentTypeChoices.contains dt = true
        ∧ st.rows.any (fun x => x.branch_id == b && x.document_type == dt
            && x.series_number == pyUpper code) = false
        ∧ register st b dt code corr
          = (.ok st.nextId,
             ⟨st.nextId + 1,
              st.rows ++ [⟨st.nextId, b, dt, pyUpper code, v.toNat, false⟩]⟩)) := by
  rw [register.eq_def]
  split
  · exact .inl ⟨_, rfl⟩
  · rename_i hchoice
    split
    · exact .inl ⟨_, rfl⟩
    · split
      · exact .inl ⟨_, rfl⟩
      · rename_i v
        split
        · exact .inl ⟨_, rfl⟩
        · rename_i hneg
          split
          · exact .inl ⟨_, rfl⟩
          · rename_i sn hclean
            have hsn : sn = pyUpper code := clean_series_ok_eq _ _ _ hclean
            subst hsn
            split
            · exact .inl ⟨_, rfl⟩
            · rename_i hnodup
              refine .inr ⟨v, rfl, by omega, hclean, by simpa using hchoice,
                ?_, rfl⟩
              exact Bool.eq_false_iff.mpr hnodup

/-- C5: if a non-removed row with the same `(branch, document_type,
series_code)` triple is already stored (codes compared after the uppercase
normalization the form applies), a second registration of that triple fails
— whatever the starting value supplied — and persists nothing. -/
theorem c5_duplicate_registration (st : RegistryState) (b : Nat)
    (dt code : String) (corr : Option Int)
    (h : ∃ r ∈ st.rows, r.is_removed = false ∧ r.branch_id = b
        ∧ r.document_type = dt ∧ r.series_number = pyUpper code) :
    (∃ e, (register st b dt code corr).1 = .error e)
      ∧ (register st b dt code corr).2 = st := by
  obtain ⟨r, hr, _, hbr, hdtr, hsnr⟩ := h
  rcases register_cases st b dt code corr with ⟨e, he⟩ | ⟨v, _, _, _, _, hany, _⟩
  · rw [he]
    exact ⟨⟨e, rfl⟩, rfl⟩
  · exfalso
    have : st.rows.any (fun x => x.branch_id == b && x.document_type == dt
        && x.series_number == pyUpper code) = true := by
      rw [List.any_eq_true]
      exact ⟨r, hr, by simp [hbr, hdtr, hsnr]⟩
    rw [this] at hany
    exact Bool.noConfusion hany

/-- Witness for C5: re-registering `("01", "f001")` for branch 7 while the
active row `F001` exists fails and leaves the registry unchanged. -/
theorem c5_duplicate_registration_witness :
    (∃ e, (register ⟨1, [⟨0, 7, "01", "F001", 1, false⟩]⟩ 7 "01" "f001"
        (some 1)).1 = .error e)
      ∧ (register ⟨1, [⟨0, 7, "01", "F001", 1, false⟩]⟩ 7 "01" "f001"
          (some 1)).2 = ⟨1, [⟨0, 7, "01", "F001", 1, false⟩]⟩ :=
  c5_duplicate_registration _ 7 "01" "f001" (some 1)
    ⟨⟨0, 7, "01", "F001", 1, false⟩, by decide, by decide, by decide, by decide,
      by decide⟩

/-! ## Claims C3 and C4: form validation -/

theorem cleanFormat_ne_prefixMismatch (s : String) :
    cleanFormat s ≠ .error .prefixMismatch := by
  rw [cleanFormat]
  split_ifs <;> intro h <;> cases h

theorem clean_series_eq_of_conventions (dt code : String) (ps : List Char)
    (hdt : conventions dt = some ps) :
    clean_series dt code
      = (if ps.any (fun p => startsWithChar (pyUpper code) p) then
          cleanFormat (pyUpper code) else .error .prefixMismatch) := by
  rw [clean_series, hdt]

theorem clean_series_prefixMismatch_iff (dt code : String) (ps : List Char)
    (hdt : conventions dt = some ps) :
    clean_series dt code = .error .prefixMismatch
      ↔ ps.any (fun p => startsWithChar (pyUpper code) p) = false := by
  rw [clean_series_eq_of_conventions dt code ps hdt]
  constructor
  · intro h
    by_cases hp : ps.any (fun p => startsWithChar (pyUpper code) p) = true
    · rw [if_pos hp] at h
      exact absurd h (cleanFormat_ne_prefixMismatch _)
    · exact Bool.eq_false_iff.mpr hp
  · intro h
    rw [if_neg (by rw [h]; exact Bool.false_ne_true)]

theorem cleanFormat_ok_iff (s : String) :
    (∃ r, cleanFormat s = .ok r) ↔ (s.length = 4 ∧ shapeOk s = true) := by
  rw [cleanFormat]
  split_ifs with h1 h2
  · constructor
    · intro ⟨r, hr⟩; cases hr
    · intro ⟨hl, _⟩; exact absurd hl h1
  · exact ⟨fun _ => ⟨by omega, h2⟩, fun _ => ⟨s, rfl⟩⟩
  · constructor
    · intro ⟨r, hr⟩; cases hr
    · intro ⟨_, hs⟩; exact absurd hs h2

theorem clean_series_ok_iff (dt code : String) (ps : List Char)
    (hdt : conventions dt = some ps) :
    (∃ r, clean_series dt code = .ok r)
      ↔ (ps.any (fun p => startsWithChar (pyUpper code) p) = true
          ∧ (pyUpper code).length = 4 ∧ shapeOk (pyUpper code) = true) := by
  rw [clean_series_eq_of_conventions dt code ps hdt]
  by_cases hp : ps.any (fun p => startsWithChar (pyUpper code) p) = true
  · rw [if_pos hp]
    rw [cleanFormat_ok_iff]
    exact ⟨fun h => ⟨hp, h⟩, fun h => h.2⟩
  · rw [if_neg hp]
    constructor
    · intro ⟨r, hr⟩; cases hr
    · intro h; exact absurd h.1 hp

/-- C3: for each document type the form rejects with the prefix-mismatch
error exactly when the uppercased code does not begin with a mandated letter
(`F` for invoices, `B` for receipts, `F` or `B` for credit and debit notes —
either accepted, no order of preference — `T` for dispatch guides), and for a
code of valid shape it is accepted exactly when a mandated letter matches. -/
theorem c3_prefix_policy (code : String) :
    (clean_series "01" code = .error .prefixMismatch
        ↔ startsWithChar (pyUpper code) 'F' = false)
      ∧ (clean_series "03" code = .error .prefixMismatch
        ↔ startsWithChar (pyUpper code) 'B' = false)
      ∧ (clean_series "07" code = .error .prefixMismatch
        ↔ (startsWithChar (pyUpper code) 'F' = false
            ∧ startsWithChar (pyUpper code) 'B' = false))
      ∧ (clean_series "08" code = .error .prefixMismatch
        ↔ (startsWithChar (pyUpper code) 'F' = false
            ∧ startsWithChar (pyUpper code) 'B' = false))
      ∧ (clean_series "09" code = .error .prefixMismatch
        ↔ startsWithChar (pyUpper code) 'T' = false)
      ∧ ((pyUpper code).length = 4 → shapeOk (pyUpper code) = true →
          ((∃ r, clean_series "01" code = .ok r)
            ↔ startsWithChar (pyUpper code) 'F' = true)
          ∧ ((∃ r, clean_series "03" code = .ok r)
            ↔ startsWithChar (pyUpper code) 'B' = true)
          ∧ ((∃ r, clean_series "07" code = .ok r)
            ↔ (startsWithChar (pyUpper code) 'F' = true
                ∨ startsWithChar (pyUpper code) 'B' = true))
          ∧ ((∃ r, clean_series "08" code = .ok r)
            ↔ (startsWithChar (pyUpper code) 'F' = true
                ∨ startsWithChar (pyUpper code) 'B' = true))
          ∧ ((∃ r, clean_series "09" code = .ok r)
            ↔ startsWithChar (pyUpper code) 'T' = true)) := by
  have h01 := clean_series_prefixMismatch_iff "01" code ['F'] rfl
  have h03 := clean_series_prefixMismatch_iff "03" code ['B'] rfl
  have h07 := clean_series_prefixMismatch_iff "07" code ['F', 'B'] rfl
  have h08 := clean_series_prefixMismatch_iff "08" code ['F', 'B'] rfl
  have h09 := clean_series_prefixMismatch_iff "09" code ['T'] rfl
  have k01 := clean_series_ok_iff "01" code ['F'] rfl
  have k03 := clean_series_ok_iff "03" code ['B'] rfl
  have k07 := clean_series_ok_iff "07" code ['F', 'B'] rfl
  have k08 := clean_series_ok_iff "08" code ['F', 'B'] rfl
  have k09 := clean_series_ok_iff "09" code ['T'] rfl
  simp only [List.any_cons, List.any_nil, Bool.or_false, Bool.or_eq_false_iff,
    Bool.or_eq_true] at h01 h03 h07 h08 h09 k01 k03 k07 k08 k09
  refine ⟨h01, h03, h07, h08, h09, fun hl hs => ?_⟩
  refine ⟨?_, ?_, ?_, ?_, ?_⟩
  · rw [k01]; exact ⟨fun h => h.1, fun h => ⟨h, hl, hs⟩⟩
  · rw [k03]; exact ⟨fun h => h.1, fun h => ⟨h, hl, hs⟩⟩
  · rw [k07]; exact ⟨fun h => h.1, fun h => ⟨h, hl, hs⟩⟩
  · rw [k08]; exact ⟨fun h => h.1, fun h => ⟨h, hl, hs⟩⟩
  · rw [k09]; exact ⟨fun h => h.1, fun h => ⟨h, hl, hs⟩⟩

/-- Witness for C3 at the spec's scenarios 2 and 3: `B001` is rejected for an
invoice with the prefix error, and accepted for a credit note. -/
theorem c3_prefix_policy_witness :
    clean_series "01" "B001" = .error .prefixMismatch
      ∧ (∃ r, clean_series "07" "B001" = .ok r) := by
  have h := c3_prefix_policy "B001"
  exact ⟨h.1.mpr (by decide),
    ((h.2.2.2.2.2 (by decide) (by decide)).2.2.1).mpr (Or.inr (by decide))⟩

theorem shape_elim (s : String) (hlen : s.length = 4) (hsh : shapeOk s = true) :
    ∃ c d₁ d₂ d₃, s.data = [c, d₁, d₂, d₃] ∧ pyIsAlpha c = true
      ∧ pyIsDigit d₁ = true ∧ pyIsDigit d₂ = true ∧ pyIsDigit d₃ = true := by
  have hl : s.data.length = 4 := hlen
  rw [shapeOk] at hsh
  cases hd : s.data with
  | nil => rw [hd] at hl; cases hl
  | cons c rest =>
    rw [hd] at hl hsh
    simp only [List.length_cons] at hl
    obtain ⟨d₁, d₂, d₃, hrest⟩ :=
      List.length_eq_three.mp (show rest.length = 3 by omega)
    subst hrest
    simp only [Bool.and_eq_true, List.all_cons, List.all_nil] at hsh
    exact ⟨c, d₁, d₂, d₃, rfl, hsh.1, hsh.2.1, hsh.2.2.1, hsh.2.2.2.1⟩

theorem pyIsDigit_ascii (d : Char) (h : pyIsDigit d = true)
    (ha : d.toNat < 128) : d.isDigit = true := by
  rw [pyIsDigit] at h
  simp only [Bool.or_eq_true, beq_iff_eq] at h
  rcases h with ((h | h) | h) | h
  · exact h
  · subst h; exact absurd ha (by decide)
  · subst h; exact absurd ha (by decide)
  · subst h; exact absurd ha (by decide)

theorem pyIsAlpha_ascii (c : Char) (h : pyIsAlpha c = true)
    (ha : c.toNat < 128) : c.isAlpha = true := by
  rw [pyIsAlpha] at h
  simp only [Bool.or_eq_true, Bool.and_eq_true, beq_iff_eq,
    decide_eq_true_eq, bne_iff_ne, ne_eq] at h
  rcases h with (((h | h) | h) | h) | h
  · exact h
  · subst h; exact absurd ha (by decide)
  · subst h; exact absurd ha (by decide)
  · subst h; exact absurd ha (by decide)
  · exact absurd ha (by omega)

/-- Counterexample to C4 as stated: the form accepts `F0²1` for an invoice —
the superscript `²` satisfies Python's `str.isdigit` — yet `²` is not a
decimal digit, so registration succeeds on a code that is not an alphabetic
character followed by three decimal digits. -/
theorem c4_counterexample :
    clean_series "01" "F0²1" = .ok "F0²1"
      ∧ ('²' : Char).isDigit = false
      ∧ ('²' : Char) ∉ ['0', '1', '2', '3', '4', '5', '6', '7', '8', '9'] :=
  ⟨by decide, by decide, by decide⟩

/-- C4 (amended): the series code is uppercased before validation (the
spec's scenario 1: `f001` for an invoice is accepted and stored as `F001`),
and a code is accepted only when its normalized form is exactly four
characters, one satisfying Python's `isalpha` followed by three satisfying
Python's `isdigit`; since Python's `isdigit` is wider than the decimal
digits, the claim's letter-plus-three-decimal-digits characterization is
exact only for codes within the ASCII range. -/
theorem c4_normalization_shape (dt code : String) :
    clean_series "01" "f001" = .ok "F001"
      ∧ (∀ sn, clean_series dt code = .ok sn →
          sn = pyUpper code
            ∧ ∃ c d₁ d₂ d₃, sn.data = [c, d₁, d₂, d₃] ∧ pyIsAlpha c = true
                ∧ pyIsDigit d₁ = true ∧ pyIsDigit d₂ = true
                ∧ pyIsDigit d₃ = true)
      ∧ (∀ sn, clean_series dt code = .ok sn →
          (∀ ch ∈ sn.data, ch.toNat < 128) →
          ∃ c d₁ d₂ d₃, sn.data = [c, d₁, d₂, d₃] ∧ c.isAlpha = true
              ∧ d₁.isDigit = true ∧ d₂.isDigit = true ∧ d₃.isDigit = true) := by
  have hmain : ∀ sn, clean_series dt code = .ok sn →
      sn = pyUpper code
        ∧ ∃ c d₁ d₂ d₃, sn.data = [c, d₁, d₂, d₃] ∧ pyIsAlpha c = true
            ∧ pyIsDigit d₁ = true ∧ pyIsDigit d₂ = true
            ∧ pyIsDigit d₃ = true := by
    intro sn hsn
    have heq : sn = pyUpper code := clean_series_ok_eq _ _ _ hsn
    subst heq
    have hok : ∃ r, cleanFormat (pyUpper code) = .ok r := by
      rw [clean_series] at hsn
      split at hsn
      · split_ifs at hsn
        exact ⟨_, hsn⟩
      · exact ⟨_, hsn⟩
    obtain ⟨hlen, hsh⟩ := (cleanFormat_ok_iff _).mp hok
    exact ⟨rfl, shape_elim _ hlen hsh⟩
  refine ⟨by decide, hmain, ?_⟩
  intro sn hsn hascii
  obtain ⟨_, c, d₁, d₂, d₃, hdata, hc, hd₁, hd₂, hd₃⟩ := hmain sn hsn
  have hmem : ∀ ch ∈ ([c, d₁, d₂, d₃] : List Char), ch.toNat < 128 := by
    rw [← hdata]
    exact hascii
  refine ⟨c, d₁, d₂, d₃, hdata, ?_, ?_, ?_, ?_⟩
  · exact pyIsAlpha_ascii c hc (hmem c (by simp))
  · exact pyIsDigit_ascii d₁ hd₁ (hmem d₁ (by simp))
  · exact pyIsDigit_ascii d₂ hd₂ (hmem d₂ (by simp))
  · exact pyIsDigit_ascii d₃ hd₃ (hmem d₃ (by simp))

/-- Witness for C4: instantiated at the malformed code `FA01` (two letters)
for an invoice, whose rejection follows because acceptance would force the
second character to satisfy `isdigit`. -/
theorem c4_normalization_shape_witness :
    clean_series "01" "f001" = .ok "F001"
      ∧ ∀ sn, clean_series "01" "FA01" ≠ .ok sn := by
  refine ⟨(c4_normalization_shape "01" "FA01").1, fun sn hsn => ?_⟩
  obtain ⟨_, c, d₁, d₂, d₃, hdata, _, hd₁, _⟩ :=
    (c4_normalization_shape "01" "FA01").2.1 sn hsn
  have : sn = pyUpper "FA01" := clean_series_ok_eq _ _ _ hsn
  subst this
  have : d₁ = 'A' := by
    have : (pyUpper "FA01").data = ['F', 'A', '0', '1'] := by decide
    rw [this] at hdata
    cases hdata
    rfl
  rw [this] at hd₁
  cases (by decide : pyIsDigit 'A' = false).symm.trans hd₁

/-! ## Claim C8 -/

/-- Counterexample to C8 as stated: a supplied starting value of 0 — less
than 1 — is accepted by the server-side validation (Django derives
`min_value = 0` from `PositiveIntegerField`; the widget's `min: 1` is only a
client-side rendering hint) and the series is persisted with
`current_correlative = 0`. -/
theorem c8_counterexample :
    (register ⟨0, []⟩ 7 "01" "F001" (some 0)).1 = .ok 0
      ∧ ((register ⟨0, []⟩ 7 "01" "F001" (some 0)).2).rows
        = [⟨0, 7, "01", "F001", 0, false⟩] :=
  ⟨by decide, by decide⟩

/-- C8 (amended): a successful registration persists exactly the supplied
starting value; the exposed registration form requires a starting value (a
request without one never succeeds — the `default = 1` of the model field
applies only to direct ORM creation) and rejects a negative one, while 0 is
accepted. -/
theorem c8_starting_value (st : RegistryState) (b : Nat) (dt code : String) :
    (∀ v : Int, v < 0 → ∀ i, (register st b dt code (some v)).1 ≠ .ok i)
      ∧ (∀ i, (register st b dt code none).1 ≠ .ok i)
      ∧ (∀ (v : Int) (i : Nat), (register st b dt code (some v)).1 = .ok i →
          0 ≤ v ∧ (register st b dt code (some v)).2.rows
            = st.rows ++ [⟨st.nextId, b, dt, pyUpper code, v.toNat, false⟩]) := by
  refine ⟨?_, ?_, ?_⟩
  · intro v hv i hok
    rcases register_cases st b dt code (some v) with ⟨e, he⟩ | ⟨w, hw, hwpos, _⟩
    · rw [he] at hok; cases hok
    · cases hw; omega
  · intro i hok
    rcases register_cases st b dt code none with ⟨e, he⟩ | ⟨w, hw, _⟩
    · rw [he] at hok; cases hok
    · cases hw
  · intro v i hok
    rcases register_cases st b dt code (some v) with ⟨e, he⟩ | ⟨w, hw, hwpos, _, _, _, hreg⟩
    · rw [he] at hok; cases hok
    · cases hw
      exact ⟨hwpos, by rw [hreg]⟩

/-- Witness for C8: on an empty registry, registering with starting value −1
is rejected, with none fails, and with 5 persists the row with counter 5. -/
theorem c8_starting_value_witness :
    ((-1 : Int) < 0 ∧ ∀ i, (register ⟨0, []⟩ 7 "01" "F001" (some (-1))).1 ≠ .ok i)
      ∧ (∀ i, (register ⟨0, []⟩ 7 "01" "F001" none).1 ≠ .ok i)
      ∧ ((register ⟨0, []⟩ 7 "01" "F001" (some 5)).1 = .ok 0 →
          (0 : Int) ≤ 5 ∧ (register ⟨0, []⟩ 7 "01" "F001" (some 5)).2.rows
            = [] ++ [⟨0, 7, "01", pyUpper "F001", Int.toNat 5, false⟩]) := by
  refine ⟨⟨by decide, (c8_starting_value ⟨0, []⟩ 7 "01" "F001").1 (-1) (by decide)⟩,
    (c8_starting_value ⟨0, []⟩ 7 "01" "F001").2.1,
    (c8_starting_value ⟨0, []⟩ 7 "01" "F001").2.2 5 0⟩

/-! ## Claims C9 and C10 -/

theorem wf_id_inj (st : RegistryState) (hwf : WF st) (r r' : DocumentSeries)
    (hr : r ∈ st.rows) (hr' : r' ∈ st.rows) (h : r.id = r'.id) : r = r' :=
  List.inj_on_of_nodup_map hwf.1 hr hr' h

theorem allocate_next_ok_spec (st : RegistryState) (sid : Nat) (out : String)
    (h : (allocate_next st sid).1 = .ok out) :
    ∃ r ∈ st.rows, r.id = sid ∧ r.is_removed = false
      ∧ out = fmt8 r.current_correlative
      ∧ (allocate_next st sid).2.rows
        = st.rows.map (fun x => if x.id == sid then
            { r with current_correlative := r.current_correlative + 1 } else x)
      ∧ (allocate_next st sid).2.nextId = st.nextId := by
  cases hf : st.rows.find? (fun r => r.id == sid && !r.is_removed) with
  | none => rw [allocate_next, hf] at h; cases h
  | some r =>
    have hmem := List.mem_of_find?_eq_some hf
    have hp := List.find?_some hf
    simp only [Bool.and_eq_true, beq_iff_eq, Bool.not_eq_true'] at hp
    rw [allocate_next, hf] at h
    simp only [get_next_correlative] at h
    refine ⟨r, hmem, hp.1, hp.2, ?_, ?_, ?_⟩
    · cases h; rfl
    · rw [allocate_next, hf]; rfl
    · rw [allocate_next, hf]

theorem allocate_next_err_state (st : RegistryState) (sid : Nat)
    (e : AllocError) (h : (allocate_next st sid).1 = .error e) :
    (allocate_next st sid).2 = st := by
  cases hf : st.rows.find? (fun r => r.id == sid && !r.is_removed) with
  | none => rw [allocate_next, hf]
  | some r => rw [allocate_next, hf] at h; cases h

/-- C9: registration touches no existing row — on success the new state is
the old rows with exactly one appended row — and a successful allocation
rewrites the table pointwise: the row with the allocated id gets only its
`current_correlative` incremented, every other row is kept identical. -/
theorem c9_frame_effects (st : RegistryState) (sid b : Nat) (dt code : String)
    (corr : Option Int) (hwf : WF st) :
    (∀ i, (register st b dt code corr).1 = .ok i →
        ∃ row, (register st b dt code corr).2.rows = st.rows ++ [row])
      ∧ (∀ out, (allocate_next st sid).1 = .ok out →
          (allocate_next st sid).2.rows
            = st.rows.map (fun x => if x.id = sid then
                { x with current_correlative := x.current_correlative + 1 }
                else x)
            ∧ ∀ x ∈ st.rows, x.id ≠ sid → x ∈ (allocate_next st sid).2.rows) := by
  constructor
  · intro i hok
    rcases register_cases st b dt code corr with ⟨e, he⟩ | ⟨v, _, _, _, _, _, hreg⟩
    · rw [he] at hok; cases hok
    · exact ⟨_, by rw [hreg]⟩
  · intro out hok
    obtain ⟨r, hmem, hid, _, _, hrows, _⟩ := allocate_next_ok_spec st sid out hok
    have hmap : (allocate_next st sid).2.rows
        = st.rows.map (fun x => if x.id = sid then
            { x with current_correlative := x.current_correlative + 1 }
            else x) := by
      rw [hrows]
      refine List.map_congr_left (fun x hx => ?_)
      by_cases hxe : x.id = sid
      · have hxr : x = r := wf_id_inj st hwf x r hx hmem (by rw [hxe, hid])
        subst hxr
        simp [hxe]
      · simp [hxe]
    refine ⟨hmap, fun x hx hne => ?_⟩
    rw [hmap]
    have := List.mem_map_of_mem (fun x => if x.id = sid then
        { x with current_correlative := x.current_correlative + 1 } else x) hx
    simpa [if_neg hne] using this

/-- Witness for C9: in a two-row registry, allocating on the first row leaves
the second row untouched and only increments the first row's counter. -/
theorem c9_frame_effects_witness :
    (allocate_next ⟨2, [⟨0, 7, "01", "F001", 5, false⟩,
        ⟨1, 7, "03", "B001", 9, false⟩]⟩ 0).2.rows
      = [⟨0, 7, "01", "F001", 5, false⟩,
          ⟨1, 7, "03", "B001", 9, false⟩].map (fun x => if x.id = 0 then
            { x with current_correlative := x.current_correlative + 1 }
            else x) :=
  ((c9_frame_effects ⟨2, [⟨0, 7, "01", "F001", 5, false⟩,
      ⟨1, 7, "03", "B001", 9, false⟩]⟩ 0 7 "09" "T001" (some 1)
    (by exact ⟨by decide, by decide⟩)).2 "00000005" (by decide)).1

/-- C10: the delete view only sets the soft-deletion flag — the row is
retained — and because the `unique_together` constraint spans removed rows
too, a later registration of the same `(branch, document_type, series_code)`
triple still fails and persists nothing. -/
theorem c10_softdelete_uniqueness (st : RegistryState) (sid b : Nat)
    (dt code : String) (corr : Option Int) (r : DocumentSeries)
    (hr : r ∈ st.rows) (hid : r.id = sid) (hact : r.is_removed = false)
    (hbr : r.branch_id = b) (hdt : r.document_type = dt)
    (hsn : r.series_number = pyUpper code) :
    (softDelete st sid).1 = true
      ∧ { r with is_removed := true } ∈ (softDelete st sid).2.rows
      ∧ (softDelete st sid).2.rows.length = st.rows.length
      ∧ (∃ e, (register (softDelete st sid).2 b dt code corr).1 = .error e)
      ∧ (register (softDelete st sid).2 b dt code corr).2
        = (softDelete st sid).2 := by
  have hany : st.rows.any (fun x => x.id == sid && !x.is_removed) = true := by
    rw [List.any_eq_true]
    exact ⟨r, hr, by simp [hid, hact]⟩
  have hsd : softDelete st sid
      = (true, { st with rows := st.rows.map (fun x =>
          if x.id == sid then { x with is_removed := true } else x) }) := by
    rw [softDelete, if_pos hany]
  have hmem : { r with is_removed := true } ∈ (softDelete st sid).2.rows := by
    rw [hsd]
    have := List.mem_map_of_mem (fun x =>
      if x.id == sid then { x with is_removed := true } else x) hr
    simpa [hid] using this
  refine ⟨by rw [hsd], hmem, by rw [hsd]; simp, ?_⟩
  rcases register_cases (softDelete st sid).2 b dt code corr with
    ⟨e, he⟩ | ⟨v, _, _, _, _, hanyf, _⟩
  · rw [he]
    exact ⟨⟨e, rfl⟩, rfl⟩
  · exfalso
    have : (softDelete st sid).2.rows.any (fun x =>
        x.branch_id == b && x.document_type == dt
          && x.series_number == pyUpper code) = true := by
      rw [List.any_eq_true]
      exact ⟨{ r with is_removed := true }, hmem, by simp [hbr, hdt, hsn]⟩
    rw [this] at hanyf
    exact Bool.noConfusion hanyf

/-- Witness for C10: deleting the only series of branch 7 keeps the flagged
row, and re-registering `("01", "F001")` afterwards fails with the state
unchanged. -/
theorem c10_softdelete_uniqueness_witness :
    (softDelete ⟨1, [⟨0, 7, "01", "F001", 4, false⟩]⟩ 0).1 = true
      ∧ (⟨0, 7, "01", "F001", 4, true⟩ : DocumentSeries)
          ∈ (softDelete ⟨1, [⟨0, 7, "01", "F001", 4, false⟩]⟩ 0).2.rows
      ∧ (softDelete ⟨1, [⟨0, 7, "01", "F001", 4, false⟩]⟩ 0).2.rows.length
        = ([⟨0, 7, "01", "F001", 4, false⟩] : List DocumentSeries).length
      ∧ (∃ e, (register (softDelete ⟨1, [⟨0, 7, "01", "F001", 4, false⟩]⟩ 0).2
          7 "01" "F001" (some 1)).1 = .error e)
      ∧ (register (softDelete ⟨1, [⟨0, 7, "01", "F001", 4, false⟩]⟩ 0).2
          7 "01" "F001" (some 1)).2
        = (softDelete ⟨1, [⟨0, 7, "01", "F001", 4, false⟩]⟩ 0).2 :=
  c10_softdelete_uniqueness ⟨1, [⟨0, 7, "01", "F001", 4, false⟩]⟩ 0 7
    "01" "F001" (some 1) ⟨0, 7, "01", "F001", 4, false⟩
    (by decide) (by decide) (by decide) (by decide) (by decide) (by decide)

/-! ## Claim C7: invariants of operation sequences -/

theorem rows_map_id_eq (rows : List DocumentSeries)
    (f : DocumentSeries → DocumentSeries)
    (hf : ∀ x ∈ rows, (f x).id = x.id) :
    (rows.map f).map (fun r => r.id) = rows.map (fun r => r.id) := by
  rw [List.map_map]
  exact List.map_congr_left (fun x hx => hf x hx)

theorem softDelete_state (st : RegistryState) (sid : Nat) :
    (softDelete st sid).2.nextId = st.nextId
      ∧ ((softDelete st sid).2.rows = st.rows
          ∨ (softDelete st sid).2.rows = st.rows.map (fun x =>
              if x.id == sid then { x with is_removed := true } else x)) := by
  rw [softDelete]
  split_ifs
  · exact ⟨rfl, Or.inr rfl⟩
  · exact ⟨rfl, Or.inl rfl⟩

theorem register_nextId_mono (st : RegistryState) (b : Nat) (dt code : String)
    (corr : Option Int) : st.nextId ≤ (register st b dt code corr).2.nextId := by
  rcases register_cases st b dt code corr with ⟨e, he⟩ | ⟨v, _, _, _, _, _, hreg⟩
  · rw [he]
  · rw [hreg]; exact Nat.le_succ _

theorem allocate_ok_map_id (st : RegistryState) (sid : Nat)
    (r₀ : DocumentSeries) (hid₀ : r₀.id = sid) : ∀ x ∈ st.rows,
    ((fun x => if x.id == sid then
        { r₀ with current_correlative := r₀.current_correlative + 1 }
        else x) x).id = x.id := by
  intro x _
  by_cases hx : x.id = sid
  · simp [hx, hid₀]
  · simp [hx]

theorem applyOp_wf (st : RegistryState) (op : Op) (hwf : WF st) :
    WF (applyOp st op).1 := by
  obtain ⟨hnd, hlt⟩ := hwf
  cases op with
  | opRegister b dt sn c =>
    show WF (register st b dt sn c).2
    rcases register_cases st b dt sn c with ⟨e, he⟩ | ⟨v, _, _, _, _, _, hreg⟩
    · rw [he]; exact ⟨hnd, hlt⟩
    · rw [hreg]
      constructor
      · show ((st.rows ++ ([⟨st.nextId, b, dt, pyUpper sn, v.toNat, false⟩]
            : List DocumentSeries)).map (fun r => r.id)).Nodup
        rw [List.map_append]
        refine List.Nodup.append hnd (by simp) ?_
        intro a ha hb
        simp only [List.map_cons, List.map_nil, List.mem_singleton] at hb
        subst hb
        obtain ⟨r, hr, hrid⟩ := List.mem_map.mp ha
        exact absurd (hrid ▸ hlt r hr) (lt_irrefl _)
      · intro r hr
        rw [List.mem_append] at hr
        rcases hr with hr | hr
        · exact Nat.lt_succ_of_lt (hlt r hr)
        · simp only [List.mem_singleton] at hr
          subst hr
          exact Nat.lt_succ_self _
  | opAllocate sid =>
    cases hall : allocate_next st sid with
    | mk res st₂ =>
      cases res with
      | error e =>
        have : st₂ = st := by
          have := allocate_next_err_state st sid e (by rw [hall])
          rw [hall] at this
          exact this
        subst this
        simp only [applyOp, hall]
        exact ⟨hnd, hlt⟩
      | ok out =>
        obtain ⟨r₀, hr₀, hid₀, _, _, hrows, hnext⟩ :=
          allocate_next_ok_spec st sid out (by rw [hall])
        rw [hall] at hrows hnext
        simp only [applyOp, hall]
        constructor
        · show (st₂.rows.map (fun r => r.id)).Nodup
          rw [hrows, rows_map_id_eq _ _ (allocate_ok_map_id st sid r₀ hid₀)]
          exact hnd
        · intro r hr
          rw [hrows] at hr
          obtain ⟨x, hx, hfx⟩ := List.mem_map.mp hr
          have : r.id = x.id := by
            rw [← hfx]
            exact allocate_ok_map_id st sid r₀ hid₀ x hx
          rw [hnext, this]
          exact hlt x hx
  | opDelete sid =>
    obtain ⟨hnext, hrows⟩ := softDelete_state st sid
    show WF (softDelete st sid).2
    rcases hrows with hrows | hrows
    · constructor
      · show ((softDelete st sid).2.rows.map (fun r => r.id)).Nodup
        rw [hrows]; exact hnd
      · intro r hr
        rw [hrows] at hr
        rw [hnext]
        exact hlt r hr
    · constructor
      · show ((softDelete st sid).2.rows.map (fun r => r.id)).Nodup
        rw [hrows, rows_map_id_eq _ _ (fun x _ => by
          by_cases hx : x.id = sid <;> simp [hx])]
        exact hnd
      · intro r hr
        rw [hrows] at hr
        obtain ⟨x, hx, hfx⟩ := List.mem_map.mp hr
        have : r.id = x.id := by
          rw [← hfx]
          by_cases hxe : x.id = sid <;> simp [hxe]
        rw [hnext, this]
        exact hlt x hx

theorem applyOp_forward (st : RegistryState) (op : Op) (hwf : WF st) :
    ∀ r ∈ st.rows, ∃ r' ∈ (applyOp st op).1.rows,
      r'.id = r.id ∧ r.current_correlative ≤ r'.current_correlative := by
  intro r hr
  cases op with
  | opRegister b dt sn c =>
    rcases register_cases st b dt sn c with ⟨e, he⟩ | ⟨v, _, _, _, _, _, hreg⟩
    · exact ⟨r, by rw [show (applyOp st (.opRegister b dt sn c)).1
          = (register st b dt sn c).2 from rfl, he]; exact hr, rfl, le_rfl⟩
    · refine ⟨r, ?_, rfl, le_rfl⟩
      rw [show (applyOp st (.opRegister b dt sn c)).1
        = (register st b dt sn c).2 from rfl, hreg]
      exact List.mem_append_left _ hr
  | opAllocate sid =>
    cases hall : allocate_next st sid with
    | mk res st₂ =>
      cases res with
      | error e =>
        have hst : st₂ = st := by
          have := allocate_next_err_state st sid e (by rw [hall])
          rw [hall] at this
          exact this
        subst hst
        simp only [applyOp, hall]
        exact ⟨r, hr, rfl, le_rfl⟩
      | ok out =>
        obtain ⟨r₀, hr₀, hid₀, _, _, hrows, _⟩ :=
          allocate_next_ok_spec st sid out (by rw [hall])
        rw [hall] at hrows
        simp only [applyOp, hall]
        refine ⟨(fun x => if x.id == sid then
            { r₀ with current_correlative := r₀.current_correlative + 1 }
            else x) r, ?_, ?_, ?_⟩
        · rw [hrows]
          exact List.mem_map_of_mem _ hr
        · exact allocate_ok_map_id st sid r₀ hid₀ r hr
        · by_cases hre : r.id = sid
          · have : r = r₀ := wf_id_inj st hwf r r₀ hr hr₀ (by rw [hre, hid₀])
            subst this
            simp [hre]
          · simp [hre]
  | opDelete sid =>
    obtain ⟨_, hrows⟩ := softDelete_state st sid
    rcases hrows with hrows | hrows
    · exact ⟨r, by show r ∈ (softDelete st sid).2.rows; rw [hrows]; exact hr,
        rfl, le_rfl⟩
    · refine ⟨(fun x => if x.id == sid then { x with is_removed := true }
          else x) r, ?_, ?_, ?_⟩
      · show _ ∈ (softDelete st sid).2.rows
        rw [hrows]
        exact List.mem_map_of_mem _ hr
      · by_cases hre : r.id = sid <;> simp [hre]
      · by_cases hre : r.id = sid <;> simp [hre]

theorem applyOp_event (st : RegistryState) (op : Op) :
    (applyOp st op).2 = none
    ∨ ∃ sid out r₀, op = .opAllocate sid
        ∧ (applyOp st op).2 = some (sid, out)
        ∧ r₀ ∈ st.rows ∧ r₀.id = sid
        ∧ out = fmt8 r₀.current_correlative
        ∧ ∃ r' ∈ (applyOp st op).1.rows, r'.id = sid
            ∧ r'.current_correlative = r₀.current_correlative + 1 := by
  cases op with
  | opRegister b dt sn c => refine .inl ?_; rfl
  | opDelete sid => refine .inl ?_; rfl
  | opAllocate sid =>
    cases hall : allocate_next st sid with
    | mk res st₂ =>
      cases res with
      | error e =>
        refine .inl ?_
        simp only [applyOp, hall]
      | ok out =>
        obtain ⟨r₀, hr₀, hid₀, _, hout, hrows, _⟩ :=
          allocate_next_ok_spec st sid out (by rw [hall])
        rw [hall] at hrows
        simp only [applyOp, hall]
        refine .inr ⟨sid, out, r₀, rfl, rfl, hr₀, hid₀, hout,
          { r₀ with current_correlative := r₀.current_correlative + 1 },
          ?_, by simp [hid₀], rfl⟩
        rw [hrows]
        have := List.mem_map_of_mem (fun x => if x.id == sid then
          { r₀ with current_correlative := r₀.current_correlative + 1 }
          else x) hr₀
        simpa [hid₀] using this

/-- The running invariant: well-formedness is preserved, every present row
survives with a counter at least as large, every allocation event carries a
formatted value at least as large as the counter its series started the
segment with, and events for the same series never repeat a string. -/
theorem runOps_invariant (ops : List Op) : ∀ st : RegistryState, WF st →
    WF (runOps st ops).1
    ∧ (∀ r ∈ st.rows, ∃ r' ∈ (runOps st ops).1.rows,
        r'.id = r.id ∧ r.current_correlative ≤ r'.current_correlative)
    ∧ (∀ e ∈ (runOps st ops).2, ∃ n : Nat, e.2 = fmt8 n
        ∧ ∀ r ∈ st.rows, r.id = e.1 → r.current_correlative ≤ n)
    ∧ List.Pairwise (fun e₁ e₂ : Nat × String =>
        e₁.1 = e₂.1 → e₁.2 ≠ e₂.2) (runOps st ops).2 := by
  induction ops with
  | nil =>
    intro st hwf
    refine ⟨hwf, fun r hr => ⟨r, hr, rfl, le_rfl⟩, ?_, List.Pairwise.nil⟩
    intro e he
    cases he
  | cons op ops ih =>
    intro st hwf
    have hwf₁ := applyOp_wf st op hwf
    obtain ⟨ihwf, ihfwd, ihev, ihpw⟩ := ih (applyOp st op).1 hwf₁
    have hrun : runOps st (op :: ops)
        = ((runOps (applyOp st op).1 ops).1,
           (applyOp st op).2.toList ++ (runOps (applyOp st op).1 ops).2) := rfl
    rw [hrun]
    refine ⟨ihwf, ?_, ?_, ?_⟩
    · intro r hr
      obtain ⟨r₁, hr₁, hid₁, hc₁⟩ := applyOp_forward st op hwf r hr
      obtain ⟨r', hr', hid', hc'⟩ := ihfwd r₁ hr₁
      exact ⟨r', hr', by rw [hid', hid₁], le_trans hc₁ hc'⟩
    · intro e he
      rw [List.mem_append] at he
      rcases he with he | he
      · rcases applyOp_event st op with
          hev | ⟨sid, out, r₀, _, hev, hr₀, hid₀, hout, _⟩
        · rw [hev] at he
          cases he
        · rw [hev] at he
          simp only [Option.toList_some, List.mem_singleton] at he
          subst he
          refine ⟨r₀.current_correlative, hout, ?_⟩
          intro r hr hrid
          have : r = r₀ := wf_id_inj st hwf r r₀ hr hr₀ (by rw [hrid, hid₀])
          rw [this]
      · obtain ⟨n, hn, hbound⟩ := ihev e he
        refine ⟨n, hn, ?_⟩
        intro r hr hrid
        obtain ⟨r₁, hr₁, hid₁, hc₁⟩ := applyOp_forward st op hwf r hr
        exact le_trans hc₁ (hbound r₁ hr₁ (by rw [hid₁, hrid]))
    · rw [List.pairwise_append]
      refine ⟨?_, ihpw, ?_⟩
      · cases (applyOp st op).2 <;> simp
      · intro e₁ he₁ e₂ he₂
        rcases applyOp_event st op with
          hev | ⟨sid, out, r₀, _, hev, hr₀, hid₀, hout, r', hr', hid', hc'⟩
        · rw [hev] at he₁
          cases he₁
        · rw [hev] at he₁
          simp only [Option.toList_some, List.mem_singleton] at he₁
          subst he₁
          obtain ⟨n, hn, hbound⟩ := ihev e₂ he₂
          intro hsid
          show out ≠ e₂.2
          have hle : r₀.current_correlative + 1 ≤ n := by
            have := hbound r' hr' (by rw [hid']; exact hsid)
            omega
          rw [hout, hn]
          intro hcontra
          have := fmt8_inj _ _ hcontra
          omega

/-- C7: along any sequence of the exposed operations (registration,
allocation, soft-deletion — no series-edit endpoint is wired, so editing
contributes no transition), no series' `current_correlative` ever decreases,
and two allocation events on the same series never return the same
correlative string. -/
theorem c7_monotone_no_reuse (st : RegistryState) (ops : List Op)
    (hwf : WF st) :
    (∀ r ∈ st.rows, ∀ r' ∈ (runOps st ops).1.rows, r'.id = r.id →
        r.current_correlative ≤ r'.current_correlative)
      ∧ List.Pairwise (fun e₁ e₂ : Nat × String =>
          e₁.1 = e₂.1 → e₁.2 ≠ e₂.2) (runOps st ops).2 := by
  obtain ⟨hwfF, hfwd, _, hpw⟩ := runOps_invariant ops st hwf
  refine ⟨?_, hpw⟩
  intro r hr r' hr' hid
  obtain ⟨r'', hr'', hid'', hc''⟩ := hfwd r hr
  have : r' = r'' := wf_id_inj _ hwfF r' r'' hr' hr'' (by rw [hid, hid''])
  rw [this]
  exact hc''

/-- Witness for C7: a concrete run — allocate twice on series 0, register a
second series, soft-delete series 0 — never lowers a counter and never
repeats a correlative string. -/
theorem c7_monotone_no_reuse_witness :
    (∀ r ∈ ([⟨0, 7, "01", "F001", 5, false⟩] : List DocumentSeries),
        ∀ r' ∈ (runOps ⟨1, [⟨0, 7, "01", "F001", 5, false⟩]⟩
            [.opAllocate 0, .opRegister 7 "03" "B001" (some 1),
              .opAllocate 0, .opDelete 0]).1.rows,
          r'.id = r.id → r.current_correlative ≤ r'.current_correlative)
      ∧ List.Pairwise (fun e₁ e₂ : Nat × String =>
          e₁.1 = e₂.1 → e₁.2 ≠ e₂.2)
        (runOps ⟨1, [⟨0, 7, "01", "F001", 5, false⟩]⟩
          [.opAllocate 0, .opRegister 7 "03" "B001" (some 1),
            .opAllocate 0, .opDelete 0]).2 :=
  c7_monotone_no_reuse ⟨1, [⟨0, 7, "01", "F001", 5, false⟩]⟩
    [.opAllocate 0, .opRegister 7 "03" "B001" (some 1),
      .opAllocate 0, .opDelete 0]
    (by exact ⟨by decide, by decide⟩)

end Arka
